import Mathlib

/-!
Verification of the G-IV Bayesian inference chunk pipeline
(pycroscopy/analysis/giv_bayesian.py, class GIVBayesian).

The development shallowly embeds the numeric and bookkeeping core of the
class over exact rationals:

* `roll_pts`, `np_roll`, `rolled_bias` — the signal-geometry fields set up
  in `__init__` (lines 68-70 of the source);
* `set_memory_and_cores` — the chunk-size adjustment performed by
  `_set_memory_and_cores` (lines 105-127), expressed as a function of the
  position estimate computed by the superclass;
* `assemble_pixel`, `write_results_chunk`, `create_results_datasets` —
  the per-pixel result assembly and the persistent write of one chunk
  (`_write_results_chunk`, lines 218-284, and `_create_results_datasets`,
  lines 129-206), with the hierarchical file modelled as `H5State`;
* `unit_computation` — the per-chunk roll/split/infer dispatch
  (`_unit_computation`, lines 286-315), with the external inference
  routine abstracted as a function argument.

Machine floats are modelled as exact rationals: every claim checked here
is an exact algebraic identity of the source expressions (the factors
0.25, 0.5, 1000 and the integer truncations are exact in both settings).
-/

namespace GIV

/-- Truncation toward zero on an exact rational: the semantics of the
Python builtin int() applied to a finite float value. -/
def python_int (q : ℚ) : ℤ := if 0 ≤ q then ⌊q⌋ else -⌊-q⌋

/-- Source line 68: roll_cyc_fract = -0.25. -/
def roll_cyc_fract : ℚ := -(1/4)

/-- Source line 69: roll_pts = int(single_ao.size * roll_cyc_fract).
The argument is the length of the bias waveform. -/
def roll_pts (n : ℕ) : ℤ := python_int ((n : ℚ) * roll_cyc_fract)

/-- Embedding of numpy.roll on a one-dimensional array: element i of the
result is element (i - k) mod n of the input (k may be negative). -/
def np_roll (l : List ℚ) (k : ℤ) : List ℚ :=
  (List.range l.length).map
    (fun (i : ℕ) => l.getD ((((i : ℤ) - k) % (l.length : ℤ)).toNat) 0)

/-- Source line 70: rolled_bias = np.roll(single_ao, roll_pts). -/
def rolled_bias (single_ao : List ℚ) : List ℚ :=
  np_roll single_ao (roll_pts single_ao.length)

/-- Arithmetic rounding, half away from zero.  This is the reading of
round() used by the specification sentence on the roll offset; it is a
specification-side definition, kept separate so it can be compared with
the source-side `roll_pts`. -/
def spec_round (q : ℚ) : ℤ := if 0 ≤ q then ⌊q + 1/2⌋ else -⌊-q + 1/2⌋

/-- Embedding of GIVBayesian._set_memory_and_cores (source lines 105-127).
The superclass call computes how many raw positions fit in the memory
budget; that estimate is taken here as the argument.  The subclass then
floor-divides it by 4 (line 123) and caps it at 500 (line 125). -/
def set_memory_and_cores (max_pos_per_read : ℕ) : ℕ :=
  min 500 (max_pos_per_read / 4)

/-- Result of the external inference routine on one half cycle of one
pixel (economy mode): the x grid, mean resistance, resistance variance
and the scalar capacitance estimate. -/
structure HalfResult where
  x : List ℚ
  mR : List ℚ
  vR : List ℚ
  cValue : ℚ
deriving DecidableEq, Inhabited

/-- Per-dataset geometry used by the result assembly: the bias waveform
(single_ao), its time derivative (dvdt) and the extra series resistance
(r_extra). -/
structure Geometry where
  single_ao : List ℚ
  dvdt : List ℚ
  r_extra : ℚ
deriving DecidableEq, Inhabited

/-- Data available for one pixel of a chunk inside _write_results_chunk:
the raw (un-rolled) measured trace and the two half-cycle inference
results. -/
structure PixelData where
  i_meas : List ℚ
  forw : HalfResult
  rev : HalfResult
deriving DecidableEq, Inhabited

/-- One row of each of the output matrices assembled for one pixel, plus
the merged x vector left over at the end of the loop iteration. -/
structure PixelOut where
  cap : ℚ × ℚ
  mR : List ℚ
  vR : List ℚ
  icorr : List ℚ
  fullX : List ℚ
deriving DecidableEq, Inhabited

/-- Source line 240: cap_val = np.mean(np.hstack((forw cValue, rev
cValue))) * 0.5 — the mean of the two scalar estimates, halved. -/
def cap_val (p : PixelData) : ℚ := ((p.forw.cValue + p.rev.cValue) / 2) * (1/2)

/-- Elementwise scalar multiplication of a numpy vector. -/
def lmul (c : ℚ) (l : List ℚ) : List ℚ := l.map (fun v => c * v)

/-- Elementwise subtraction of two numpy vectors of equal length. -/
def lsub (a b : List ℚ) : List ℚ := List.zipWith (fun u v => u - v) a b

/-- Body of the per-pixel loop of _write_results_chunk (source lines
231-261): capacitance compensation of the raw current (lines 247-249),
sign flip of the reverse x (line 252), concatenation of the half-cycle
results (lines 254-256) and the unit conversion of the stored
capacitance pair (line 259). -/
def assemble_pixel (g : Geometry) (p : PixelData) : PixelOut :=
  let i_cap := lmul (cap_val p) g.dvdt
  let i_extra := lmul (g.r_extra * 2 * cap_val p) g.single_ao
  let i_corr_sine := lsub (lsub p.i_meas i_cap) i_extra
  let rev_x := p.rev.x.map (fun v => -1 * v)
  { cap := (p.forw.cValue * 1000, p.rev.cValue * 1000)
    mR := p.forw.mR ++ p.rev.mR
    vR := p.forw.vR ++ p.rev.vR
    icorr := i_corr_sine
    fullX := p.forw.x ++ rev_x }

/-- Observable actions performed on the hierarchical file by one call to
_write_results_chunk, in program order. -/
inductive H5Event where
  | writeX : H5Event
  | writeRows : ℕ → ℕ → H5Event
  | setLastPixel : ℕ → H5Event
  | flush : H5Event
deriving DecidableEq

/-- State of the output group together with the chunk cursor of the
process object: the shared x-axis dataset, the four per-position result
datasets (a row is none while never written), the last_pixel attribute,
the start cursor and the log of file actions. -/
structure H5State where
  spec_vals_x : Option (List ℚ)
  cap_rows : ℕ → Option (ℚ × ℚ)
  res_rows : ℕ → Option (List ℚ)
  var_rows : ℕ → Option (List ℚ)
  icorr_rows : ℕ → Option (List ℚ)
  last_pixel : ℕ
  start_pos : ℕ
  events : List H5Event

/-- Fresh output group as built by _create_results_datasets (source lines
129-206): empty datasets and the attribute last_pixel = 0 (line 167),
with the cursor at position 0. -/
def create_results_datasets : H5State :=
  { spec_vals_x := none
    cap_rows := fun _ => none
    res_rows := fun _ => none
    var_rows := fun _ => none
    icorr_rows := fun _ => none
    last_pixel := 0
    start_pos := 0
    events := [] }

/-- Range assignment dataset[start : start + vals.length] = vals, leaving
every other row unchanged. -/
def write_rows {α : Type} (old : ℕ → Option α) (start : ℕ) (vals : List α) :
    ℕ → Option α :=
  fun i => if start ≤ i ∧ i < start + vals.length then vals[i - start]? else old i

/-- Embedding of _write_results_chunk (source lines 218-284) acting on
one chunk of per-pixel data.  The loop over pixels becomes the map by
`assemble_pixel`; the variable full_results left over after the loop is
the output of the last pixel, and its x field is what line 268 stores
into the shared x-axis dataset when start_pos == 0.  Lines 270-274 write
the four matrices into rows [start_pos, end_pos), line 277 updates
last_pixel, line 279 flushes and line 284 advances the cursor. -/
def write_results_chunk (g : Geometry) (st : H5State) (chunk : List PixelData) :
    H5State :=
  let outs := chunk.map (assemble_pixel g)
  let endPos := st.start_pos + chunk.length
  let xNew : Option (List ℚ) :=
    if st.start_pos = 0 then
      match outs.getLast? with
      | some o => some o.fullX
      | none => st.spec_vals_x
    else st.spec_vals_x
  let xEvents : List H5Event :=
    if st.start_pos = 0 then
      match outs.getLast? with
      | some _ => [H5Event.writeX]
      | none => []
    else []
  { spec_vals_x := xNew
    cap_rows := write_rows st.cap_rows st.start_pos (outs.map PixelOut.cap)
    res_rows := write_rows st.res_rows st.start_pos (outs.map PixelOut.mR)
    var_rows := write_rows st.var_rows st.start_pos (outs.map PixelOut.vR)
    icorr_rows := write_rows st.icorr_rows st.start_pos (outs.map PixelOut.icorr)
    last_pixel := endPos
    start_pos := endPos
    events := st.events ++ xEvents ++
      [H5Event.writeRows st.start_pos endPos, H5Event.setLastPixel endPos,
       H5Event.flush] }

/-- Sequential chunk loop: each finished chunk is written before the next
one starts. -/
def run_chunks (g : Geometry) (st : H5State) (cs : List (List PixelData)) : H5State :=
  cs.foldl (write_results_chunk g) st

/-- Embedding of _unit_computation (source lines 286-315) on one chunk of
raw traces.  The external inference routine (trace, bias ramp) together
with its fixed frequency/parameter arguments is abstracted as `infer`;
parallel_compute preserves input order, so each half becomes an ordered
map over positions. -/
def unit_computation (infer : List ℚ → List ℚ → HalfResult)
    (single_ao : List ℚ) (data : List (List ℚ)) :
    List HalfResult × List HalfResult :=
  let half_v_steps := single_ao.length / 2
  let rp := roll_pts single_ao.length
  let rb := rolled_bias single_ao
  let rolled_raw_data := data.map (fun t => np_roll t rp)
  let reverse_results :=
    (rolled_raw_data.map (fun t => (t.take half_v_steps).map (fun v => v * -1))).map
      (fun t => infer t ((rb.take half_v_steps).map (fun v => v * -1)))
  let forward_results :=
    (rolled_raw_data.map (fun t => t.drop half_v_steps)).map
      (fun t => infer t (rb.drop half_v_steps))
  (forward_results, reverse_results)

/-- Rows 0 to last_pixel - 1 of every result dataset are written, no row
beyond is, and the start cursor sits at last_pixel: the resumability
invariant maintained between chunk writes. -/
def good_state (st : H5State) : Prop :=
  st.start_pos = st.last_pixel ∧
  ∀ i : ℕ, (st.cap_rows i ≠ none ↔ i < st.last_pixel) ∧
           (st.res_rows i ≠ none ↔ i < st.last_pixel) ∧
           (st.var_rows i ≠ none ↔ i < st.last_pixel) ∧
           (st.icorr_rows i ≠ none ↔ i < st.last_pixel)

/-! ### Helper lemmas -/

theorem roll_pts_eq_neg_div (n : ℕ) : roll_pts n = -((n / 4 : ℕ) : ℤ) := by
  unfold roll_pts python_int roll_cyc_fract
  rcases Nat.eq_zero_or_pos n with h | h
  · subst h; norm_num
  · have hq : (n : ℚ) * (-(1/4)) = -((n : ℚ) / 4) := by ring
    rw [hq]
    have hpos : (0 : ℚ) < (n : ℚ) / 4 := by positivity
    rw [if_neg (by linarith), neg_neg]
    have h4 : ((n : ℚ) / 4) = ((n : ℚ) / ((4 : ℕ) : ℚ)) := by norm_num
    rw [h4, Rat.floor_natCast_div_natCast]
    omega

theorem np_roll_length (l : List ℚ) (k : ℤ) : (np_roll l k).length = l.length := by
  unfold np_roll
  rw [List.length_map, List.length_range]

theorem np_roll_get (l : List ℚ) (k : ℤ) (i : ℕ) (hi : i < l.length) :
    (np_roll l k)[i]? = l[((((i : ℤ) - k) % (l.length : ℤ)).toNat)]? := by
  unfold np_roll
  rw [List.getElem?_map, List.getElem?_range hi]
  have hmod : ((((i : ℤ) - k) % (l.length : ℤ))).toNat < l.length := by
    have hlen : (0:ℤ) < (l.length : ℤ) := by omega
    have h1 : ((i : ℤ) - k) % (l.length : ℤ) < (l.length : ℤ) :=
      Int.emod_lt_of_pos _ hlen
    have h2 : 0 ≤ ((i : ℤ) - k) % (l.length : ℤ) := Int.emod_nonneg _ (by omega)
    omega
  rw [List.getElem?_eq_getElem hmod]
  simp [List.getD_eq_getElem?_getD, List.getElem?_eq_getElem hmod]

theorem lmul_length (c : ℚ) (l : List ℚ) : (lmul c l).length = l.length :=
  List.length_map l _

theorem lsub_length (a b : List ℚ) : (lsub a b).length = min a.length b.length :=
  List.length_zipWith _ a b

theorem lmul_get (c : ℚ) (l : List ℚ) (i : ℕ) (h : i < l.length) :
    (lmul c l)[i]? = some (c * l[i]) := by
  unfold lmul
  rw [List.getElem?_map, List.getElem?_eq_getElem h]
  rfl

theorem lsub_get (a b : List ℚ) (i : ℕ) (h1 : i < a.length) (h2 : i < b.length) :
    (lsub a b)[i]? = some (a[i] - b[i]) := by
  have h : i < (lsub a b).length := by rw [lsub_length]; omega
  rw [List.getElem?_eq_getElem h]
  unfold lsub
  rw [List.getElem_zipWith]

theorem assemble_pixel_icorr (g : Geometry) (p : PixelData) :
    (assemble_pixel g p).icorr =
      lsub (lsub p.i_meas (lmul (cap_val p) g.dvdt))
           (lmul (g.r_extra * 2 * cap_val p) g.single_ao) := rfl

theorem assemble_pixel_fullX (g : Geometry) (p : PixelData) :
    (assemble_pixel g p).fullX = p.forw.x ++ p.rev.x.map (fun v => -1 * v) := rfl

theorem assemble_pixel_cap (g : Geometry) (p : PixelData) :
    (assemble_pixel g p).cap = (p.forw.cValue * 1000, p.rev.cValue * 1000) := rfl

/-! ### Claim C1 -/

/-- Claim C1 (corrected): the chunk size computed by _set_memory_and_cores
equals the superclass estimate floor-divided by 4 and capped at 500, hence
never exceeds 500; it is at least 1 whenever the estimate is at least 4,
but — contrary to the claim — it is 0 (not 1) whenever the estimate is
smaller than 4, since the source applies no lower bound. -/
theorem set_memory_and_cores_formula (m : ℕ) :
    set_memory_and_cores m = min 500 (m / 4) ∧
    set_memory_and_cores m ≤ 500 ∧
    (4 ≤ m → 1 ≤ set_memory_and_cores m) ∧
    (m < 4 → set_memory_and_cores m = 0) := by
  refine ⟨rfl, Nat.min_le_left _ _, fun h => ?_, fun h => ?_⟩
  · unfold set_memory_and_cores
    have h1 : 1 ≤ m / 4 := Nat.one_le_div_iff (by omega) |>.mpr h
    omega
  · unfold set_memory_and_cores
    have h0 : m / 4 = 0 := Nat.div_eq_of_lt h
    omega

/-- Claim C1, witness: concrete instantiation of the amended statement at
an estimate of 2048 positions. -/
theorem set_memory_and_cores_formula_witness :
    4 ≤ 2048 ∧ 1 ≤ set_memory_and_cores 2048 ∧ set_memory_and_cores 2048 ≤ 500 :=
  ⟨by decide, (set_memory_and_cores_formula 2048).2.2.1 (by decide),
   (set_memory_and_cores_formula 2048).2.1⟩

/-- Claim C1, counterexample: when the memory-derived estimate is 3 (< 4),
the computed positions-per-chunk value is 0, refuting the claim that the
minimum is 1 in that case. -/
theorem set_memory_and_cores_zero_counterexample :
    ¬ (1 ≤ set_memory_and_cores 3) := by decide

/-! ### Claim C2 -/

/-- Claim C2 (corrected): roll_pts is the truncation toward zero of
-0.25 * L (Python int()), equal to the negated floor division L / 4 — not
the arithmetic rounding the claim states; rolled_bias is the bias
circularly shifted by exactly that offset, with the length preserved and
every entry given by the circular index formula. -/
theorem roll_pts_truncates (bias : List ℚ) :
    roll_pts bias.length = python_int ((bias.length : ℚ) * roll_cyc_fract) ∧
    roll_pts bias.length = -((bias.length / 4 : ℕ) : ℤ) ∧
    rolled_bias bias = np_roll bias (roll_pts bias.length) ∧
    (rolled_bias bias).length = bias.length ∧
    (∀ i, i < bias.length →
      (rolled_bias bias)[i]? =
        bias[((((i : ℤ) - roll_pts bias.length) % (bias.length : ℤ)).toNat)]?) := by
  refine ⟨rfl, roll_pts_eq_neg_div _, rfl, np_roll_length _ _, fun i hi => ?_⟩
  exact np_roll_get bias (roll_pts bias.length) i hi

/-- Claim C2, witness: the amended statement instantiated on the concrete
six-point waveform [1, 2, 3, 4, 5, 6] at index 0 — the roll offset is -1
and entry 0 of the rolled bias is entry 1 of the original. -/
theorem roll_pts_truncates_witness :
    roll_pts ([1, 2, 3, 4, 5, 6] : List ℚ).length = -1 ∧
    (0 < ([1, 2, 3, 4, 5, 6] : List ℚ).length) ∧
    (rolled_bias [1, 2, 3, 4, 5, 6])[0]? = some (2 : ℚ) := by
  have h := roll_pts_truncates ([1, 2, 3, 4, 5, 6] : List ℚ)
  have hlen : ([1, 2, 3, 4, 5, 6] : List ℚ).length = 6 := by decide
  have hrp : roll_pts ([1, 2, 3, 4, 5, 6] : List ℚ).length = -1 := by
    rw [h.2.1, hlen]; decide
  refine ⟨hrp, by decide, ?_⟩
  have h5 := h.2.2.2.2 0 (by decide)
  rw [hrp, hlen] at h5
  rw [h5]
  norm_num

/-- Claim C2, counterexample: for a bias of length 6 the source offset is
int(-1.5) = -1 (truncation toward zero), while the arithmetic rounding of
-0.25 * 6 stated by the claim is -2. -/
theorem roll_pts_not_round_counterexample :
    roll_pts 6 ≠ spec_round ((6 : ℚ) * roll_cyc_fract) ∧
    roll_pts 6 = -1 ∧ spec_round ((6 : ℚ) * roll_cyc_fract) = -2 := by
  have h1 : roll_pts 6 = -1 := by rw [roll_pts_eq_neg_div]; decide
  have h2 : spec_round ((6 : ℚ) * roll_cyc_fract) = -2 := by
    unfold spec_round roll_cyc_fract
    rw [if_neg (by norm_num)]
    rw [show -((6 : ℚ) * (-(1/4))) + 1/2 = 2 by norm_num]
    norm_num
  exact ⟨by rw [h1, h2]; decide, h1, h2⟩

theorem write_rows_map_get {α : Type} (old : ℕ → Option α) (start : ℕ)
    (f : PixelData → α) (chunk : List PixelData) (i : ℕ)
    (h1 : start ≤ i) (h2 : i < start + chunk.length) :
    write_rows old start (chunk.map f) i
      = some (f (chunk.getD (i - start) default)) := by
  unfold write_rows
  rw [if_pos ⟨h1, by rw [List.length_map]; omega⟩]
  have hj : i - start < chunk.length := by omega
  rw [List.getElem?_map, List.getElem?_eq_getElem hj,
      List.getD_eq_getElem chunk default hj]
  rfl

theorem write_rows_out {α : Type} (old : ℕ → Option α) (start : ℕ)
    (vals : List α) (i : ℕ) (h : i < start ∨ start + vals.length ≤ i) :
    write_rows old start vals i = old i := by
  unfold write_rows
  rw [if_neg]
  rintro ⟨ha, hb⟩
  omega

theorem write_rows_ne_none_iff {α : Type} (old : ℕ → Option α) (start : ℕ)
    (vals : List α) (i : ℕ) (hold : old i ≠ none ↔ i < start) :
    (write_rows old start vals i ≠ none ↔ i < start + vals.length) := by
  unfold write_rows
  by_cases hc : start ≤ i ∧ i < start + vals.length
  · rw [if_pos hc]
    have hj : i - start < vals.length := by omega
    rw [List.getElem?_eq_getElem hj]
    constructor
    · intro _; omega
    · intro _; simp
  · rw [if_neg hc, hold]
    omega

theorem good_state_write (g : Geometry) (st : H5State) (chunk : List PixelData)
    (h : good_state st) : good_state (write_results_chunk g st chunk) := by
  obtain ⟨hsl, hrows⟩ := h
  refine ⟨rfl, fun i => ?_⟩
  have hlen : ∀ {α : Type} (f : PixelOut → α),
      ((chunk.map (assemble_pixel g)).map f).length = chunk.length := by
    intro α f
    rw [List.length_map, List.length_map]
  have hcap := write_rows_ne_none_iff st.cap_rows st.start_pos
      ((chunk.map (assemble_pixel g)).map PixelOut.cap) i
      (by rw [(hrows i).1, hsl])
  have hres := write_rows_ne_none_iff st.res_rows st.start_pos
      ((chunk.map (assemble_pixel g)).map PixelOut.mR) i
      (by rw [(hrows i).2.1, hsl])
  have hvar := write_rows_ne_none_iff st.var_rows st.start_pos
      ((chunk.map (assemble_pixel g)).map PixelOut.vR) i
      (by rw [(hrows i).2.2.1, hsl])
  have hicorr := write_rows_ne_none_iff st.icorr_rows st.start_pos
      ((chunk.map (assemble_pixel g)).map PixelOut.icorr) i
      (by rw [(hrows i).2.2.2, hsl])
  rw [hlen PixelOut.cap] at hcap
  rw [hlen PixelOut.mR] at hres
  rw [hlen PixelOut.vR] at hvar
  rw [hlen PixelOut.icorr] at hicorr
  exact ⟨hcap, hres, hvar, hicorr⟩

theorem good_state_create : good_state create_results_datasets := by
  refine ⟨rfl, fun i => ?_⟩
  refine ⟨?_, ?_, ?_, ?_⟩ <;> simp [create_results_datasets]

theorem good_state_run (g : Geometry) (cs : List (List PixelData)) (st : H5State)
    (h : good_state st) : good_state (run_chunks g st cs) := by
  induction cs generalizing st with
  | nil => exact h
  | cons c cs ih => exact ih _ (good_state_write g st c h)

/-! ### Claim C3 -/

/-- Claim C3 (corrected): when the shared x-axis is written, the vector
stored is the merged x of the LAST position of the chunk (the loop
variable full_results holds the final iteration after the loop ends), not
the first position as the claim states. -/
theorem x_axis_from_last_pixel (g : Geometry) (st : H5State)
    (chunk : List PixelData) (h0 : st.start_pos = 0) (hne : chunk ≠ []) :
    (write_results_chunk g st chunk).spec_vals_x
      = some ((assemble_pixel g (chunk.getLast hne)).fullX) := by
  show (if st.start_pos = 0 then
          match (chunk.map (assemble_pixel g)).getLast? with
          | some o => some o.fullX
          | none => st.spec_vals_x
        else st.spec_vals_x) = _
  rw [if_pos h0, List.getLast?_map, List.getLast?_eq_getLast chunk hne]
  rfl

/-- Claim C3, witness: on a concrete two-pixel first chunk, the stored
x-axis is the merged x of the second (last) pixel. -/
theorem x_axis_from_last_pixel_witness :
    (write_results_chunk ⟨[], [], 0⟩ create_results_datasets
        [⟨[], ⟨[1], [], [], 0⟩, ⟨[], [], [], 0⟩⟩,
         ⟨[], ⟨[2], [], [], 0⟩, ⟨[], [], [], 0⟩⟩]).spec_vals_x
      = some ((assemble_pixel ⟨[], [], 0⟩
          ⟨[], ⟨[2], [], [], 0⟩, ⟨[], [], [], 0⟩⟩).fullX) := by
  have h := x_axis_from_last_pixel ⟨[], [], 0⟩ create_results_datasets
      [⟨[], ⟨[1], [], [], 0⟩, ⟨[], [], [], 0⟩⟩,
       ⟨[], ⟨[2], [], [], 0⟩, ⟨[], [], [], 0⟩⟩] rfl (by simp)
  rw [h]
  rfl

/-- Claim C3, counterexample: a first chunk of two pixels whose merged x
vectors differ; the value stored into the shared x-axis is the one of the
last pixel and differs from the one of the first pixel, refuting the
claim as stated. -/
theorem x_axis_first_pixel_counterexample :
    (write_results_chunk ⟨[], [], 0⟩ create_results_datasets
        [⟨[], ⟨[1], [], [], 0⟩, ⟨[], [], [], 0⟩⟩,
         ⟨[], ⟨[2], [], [], 0⟩, ⟨[], [], [], 0⟩⟩]).spec_vals_x
      = some ((assemble_pixel ⟨[], [], 0⟩
          ⟨[], ⟨[2], [], [], 0⟩, ⟨[], [], [], 0⟩⟩).fullX) ∧
    (assemble_pixel ⟨[], [], 0⟩ ⟨[], ⟨[2], [], [], 0⟩, ⟨[], [], [], 0⟩⟩).fullX
      ≠ (assemble_pixel ⟨[], [], 0⟩
          ⟨[], ⟨[1], [], [], 0⟩, ⟨[], [], [], 0⟩⟩).fullX := by
  constructor
  · rfl
  · rw [assemble_pixel_fullX, assemble_pixel_fullX]
    simp

/-! ### Claim C7 -/

/-- Claim C7 (confirmed): a chunk whose start position is nonzero leaves
the shared x-axis dataset untouched, while the four per-pixel matrices
are still written into exactly the rows [start_pos, end_pos), every other
row staying unchanged. -/
theorem x_axis_written_only_first (g : Geometry) (st : H5State)
    (chunk : List PixelData) (h : st.start_pos ≠ 0) :
    (write_results_chunk g st chunk).spec_vals_x = st.spec_vals_x ∧
    (∀ i, st.start_pos ≤ i → i < st.start_pos + chunk.length →
      ((write_results_chunk g st chunk).cap_rows i
          = some ((assemble_pixel g (chunk.getD (i - st.start_pos) default)).cap) ∧
       (write_results_chunk g st chunk).res_rows i
          = some ((assemble_pixel g (chunk.getD (i - st.start_pos) default)).mR) ∧
       (write_results_chunk g st chunk).var_rows i
          = some ((assemble_pixel g (chunk.getD (i - st.start_pos) default)).vR) ∧
       (write_results_chunk g st chunk).icorr_rows i
          = some ((assemble_pixel g (chunk.getD (i - st.start_pos) default)).icorr))) ∧
    (∀ i, i < st.start_pos ∨ st.start_pos + chunk.length ≤ i →
      ((write_results_chunk g st chunk).cap_rows i = st.cap_rows i ∧
       (write_results_chunk g st chunk).res_rows i = st.res_rows i ∧
       (write_results_chunk g st chunk).var_rows i = st.var_rows i ∧
       (write_results_chunk g st chunk).icorr_rows i = st.icorr_rows i)) := by
  refine ⟨?_, fun i h1 h2 => ?_, fun i hout => ?_⟩
  · show (if st.start_pos = 0 then _ else st.spec_vals_x) = st.spec_vals_x
    rw [if_neg h]
  · refine ⟨?_, ?_, ?_, ?_⟩ <;>
    · show write_rows _ st.start_pos ((chunk.map (assemble_pixel g)).map _) i = _
      rw [List.map_map, write_rows_map_get _ st.start_pos _ chunk i h1 h2]
      rfl
  · have hlen : ∀ {α : Type} (f : PixelOut → α),
        i < st.start_pos ∨
          st.start_pos + ((chunk.map (assemble_pixel g)).map f).length ≤ i := by
      intro α f
      rw [List.length_map, List.length_map]
      omega
    exact ⟨write_rows_out _ _ _ i (hlen PixelOut.cap),
           write_rows_out _ _ _ i (hlen PixelOut.mR),
           write_rows_out _ _ _ i (hlen PixelOut.vR),
           write_rows_out _ _ _ i (hlen PixelOut.icorr)⟩

/-- Claim C7, witness: a one-pixel chunk written at start position 3
leaves the x-axis untouched, writes row 3 and leaves row 0 unchanged. -/
theorem x_axis_written_only_first_witness :
    (write_results_chunk ⟨[], [], 0⟩
        { spec_vals_x := some [7], cap_rows := fun _ => none,
          res_rows := fun _ => none, var_rows := fun _ => none,
          icorr_rows := fun _ => none, last_pixel := 3, start_pos := 3,
          events := [] }
        [⟨[], ⟨[], [5], [], 4⟩, ⟨[], [], [], 6⟩⟩]).spec_vals_x = some [7] ∧
    (write_results_chunk ⟨[], [], 0⟩
        { spec_vals_x := some [7], cap_rows := fun _ => none,
          res_rows := fun _ => none, var_rows := fun _ => none,
          icorr_rows := fun _ => none, last_pixel := 3, start_pos := 3,
          events := [] }
        [⟨[], ⟨[], [5], [], 4⟩, ⟨[], [], [], 6⟩⟩]).res_rows 3 = some [5] ∧
    (write_results_chunk ⟨[], [], 0⟩
        { spec_vals_x := some [7], cap_rows := fun _ => none,
          res_rows := fun _ => none, var_rows := fun _ => none,
          icorr_rows := fun _ => none, last_pixel := 3, start_pos := 3,
          events := [] }
        [⟨[], ⟨[], [5], [], 4⟩, ⟨[], [], [], 6⟩⟩]).cap_rows 0 = none := by
  have h := x_axis_written_only_first ⟨[], [], 0⟩
      { spec_vals_x := some [7], cap_rows := fun _ => none,
        res_rows := fun _ => none, var_rows := fun _ => none,
        icorr_rows := fun _ => none, last_pixel := 3, start_pos := 3,
        events := [] }
      [⟨[], ⟨[], [5], [], 4⟩, ⟨[], [], [], 6⟩⟩] (by decide)
  refine ⟨h.1, ?_, ?_⟩
  · have h2 := (h.2.1 3 (by decide) (by simp)).2.1
    simpa using h2
  · have h3 := (h.2.2 0 (by simp)).1
    simpa using h3

/-! ### Claim C9 -/

/-- Claim C9 (confirmed): a fresh output group carries last_pixel = 0;
each chunk write sets last_pixel to the end position, appends a flush
right after that attribute update, and advances the start cursor to the
end position; and along any sequential run from a fresh group, exactly
the rows below last_pixel are fully written. -/
theorem last_pixel_invariant :
    create_results_datasets.last_pixel = 0 ∧
    (∀ (g : Geometry) (st : H5State) (chunk : List PixelData),
      (write_results_chunk g st chunk).last_pixel = st.start_pos + chunk.length ∧
      (write_results_chunk g st chunk).start_pos = st.start_pos + chunk.length ∧
      ∃ l, (write_results_chunk g st chunk).events
          = l ++ [H5Event.setLastPixel (st.start_pos + chunk.length),
                  H5Event.flush]) ∧
    (∀ (g : Geometry) (cs : List (List PixelData)),
      good_state (run_chunks g create_results_datasets cs)) := by
  refine ⟨rfl, fun g st chunk => ⟨rfl, rfl, ?_⟩,
      fun g cs => good_state_run g cs _ good_state_create⟩
  obtain ⟨A, hA⟩ : ∃ A, (write_results_chunk g st chunk).events
      = A ++ [H5Event.writeRows st.start_pos (st.start_pos + chunk.length),
              H5Event.setLastPixel (st.start_pos + chunk.length), H5Event.flush] :=
    ⟨_, rfl⟩
  refine ⟨A ++ [H5Event.writeRows st.start_pos (st.start_pos + chunk.length)], ?_⟩
  rw [hA]
  simp

/-! ### Claim C6 -/

/-- Claim C6 (confirmed): the chunk processor rolls every trace by
roll_pts, then maps the inference routine over positions, pairing the
upper slice of each rolled trace with the upper slice of the rolled bias
(forward half) and the sign-flipped lower slices with each other (reverse
half), where the split point is half of the bias length. -/
theorem unit_computation_split (infer : List ℚ → List ℚ → HalfResult)
    (single_ao : List ℚ) (data : List (List ℚ)) :
    (unit_computation infer single_ao data).1.length = data.length ∧
    (unit_computation infer single_ao data).2.length = data.length ∧
    (∀ i, i < data.length →
      (unit_computation infer single_ao data).1[i]? =
        some (infer ((np_roll (data.getD i []) (roll_pts single_ao.length)).drop
                      (single_ao.length / 2))
                    ((rolled_bias single_ao).drop (single_ao.length / 2))) ∧
      (unit_computation infer single_ao data).2[i]? =
        some (infer (((np_roll (data.getD i []) (roll_pts single_ao.length)).take
                       (single_ao.length / 2)).map (fun v => v * -1))
                    (((rolled_bias single_ao).take (single_ao.length / 2)).map
                      (fun v => v * -1)))) := by
  unfold unit_computation
  refine ⟨by simp, by simp, fun i hi => ⟨?_, ?_⟩⟩
  · simp only [List.getElem?_map, List.getElem?_eq_getElem hi,
      List.getD_eq_getElem data [] hi]
    rfl
  · simp only [List.getElem?_map, List.getElem?_eq_getElem hi,
      List.getD_eq_getElem data [] hi]
    rfl

/-- Claim C6, witness: on the four-point bias [1, 2, 3, 4] and the single
trace [5, 6, 7, 8], the roll offset is -1, the rolled trace is
[6, 7, 8, 5], the forward half passed to the inference routine is [8, 5]
with bias [4, 1], and the reverse half is [-6, -7] with bias [-2, -3]. -/
theorem unit_computation_split_witness :
    (unit_computation (fun t b => ⟨t, b, [], 0⟩) [1, 2, 3, 4]
        [[5, 6, 7, 8]]).1[0]? = some ⟨[8, 5], [4, 1], [], 0⟩ ∧
    (unit_computation (fun t b => ⟨t, b, [], 0⟩) [1, 2, 3, 4]
        [[5, 6, 7, 8]]).2[0]? = some ⟨[-6, -7], [-2, -3], [], 0⟩ := by
  have h := (unit_computation_split (fun t b => ⟨t, b, [], 0⟩) [1, 2, 3, 4]
      [[5, 6, 7, 8]]).2.2 0 (by decide)
  have hrp : roll_pts ([1, 2, 3, 4] : List ℚ).length = -1 := by
    rw [show ([1, 2, 3, 4] : List ℚ).length = 4 from by decide,
        roll_pts_eq_neg_div]
    decide
  have hroll : np_roll ([5, 6, 7, 8] : List ℚ) (-1) = [6, 7, 8, 5] := by
    simp [np_roll, List.range_succ]
  have hbias : rolled_bias ([1, 2, 3, 4] : List ℚ) = [2, 3, 4, 1] := by
    unfold rolled_bias
    rw [hrp]
    simp [np_roll, List.range_succ]
  constructor
  · rw [h.1, hrp]
    simp only [List.getD]
    norm_num [hroll, hbias]
  · rw [h.2, hrp]
    simp only [List.getD]
    norm_num [hroll, hbias]

/-! ### Claim C4 -/

/-- Claim C4 (confirmed): with capacitance = mean of the two half-cycle
cValue estimates further halved, the corrected current is elementwise
raw - capacitance * dvdt - 2 * r_extra * capacitance * bias over the full
un-rolled trace; in particular the capacitance used for forward 4.0 and
reverse 6.0 is 2.5, and the quoted numeric instance yields [8.8, 8.8]. -/
theorem corrected_current_formula (g : Geometry) (p : PixelData)
    (hdv : g.dvdt.length = p.i_meas.length)
    (hao : g.single_ao.length = p.i_meas.length) :
    ((assemble_pixel g p).icorr.length = p.i_meas.length ∧
      ∀ i, i < p.i_meas.length →
        (assemble_pixel g p).icorr[i]? =
          some (p.i_meas.getD i 0 - cap_val p * g.dvdt.getD i 0
                - 2 * g.r_extra * cap_val p * g.single_ao.getD i 0)) ∧
    cap_val ⟨[], ⟨[], [], [], 4⟩, ⟨[], [], [], 6⟩⟩ = 5/2 ∧
    (assemble_pixel ⟨[1, 1], [2, 2], 5⟩
        ⟨[10, 10], ⟨[], [], [], 1/5⟩, ⟨[], [], [], 1/5⟩⟩).icorr
      = [44/5, 44/5] := by
  have hicap : (lmul (cap_val p) g.dvdt).length = p.i_meas.length := by
    rw [lmul_length, hdv]
  have hiext : (lmul (g.r_extra * 2 * cap_val p) g.single_ao).length
      = p.i_meas.length := by
    rw [lmul_length, hao]
  have hlen1 : (lsub p.i_meas (lmul (cap_val p) g.dvdt)).length
      = p.i_meas.length := by
    rw [lsub_length, hicap]; omega
  refine ⟨⟨?_, fun i hi => ?_⟩, by norm_num [cap_val], ?_⟩
  · rw [assemble_pixel_icorr, lsub_length, hlen1, hiext]; omega
  · have hdvi : i < g.dvdt.length := by omega
    have haoi : i < g.single_ao.length := by omega
    have h1 : i < (lsub p.i_meas (lmul (cap_val p) g.dvdt)).length := by
      rw [hlen1]; omega
    rw [assemble_pixel_icorr]
    rw [lsub_get _ _ i h1 (by omega)]
    have hsub1 : (lsub p.i_meas (lmul (cap_val p) g.dvdt))[i] =
        p.i_meas[i] - cap_val p * g.dvdt[i] := by
      have := lsub_get p.i_meas (lmul (cap_val p) g.dvdt) i hi (by omega)
      have hgm : (lmul (cap_val p) g.dvdt)[i] = cap_val p * g.dvdt[i] := by
        have := lmul_get (cap_val p) g.dvdt i hdvi
        rw [List.getElem?_eq_getElem (by omega)] at this
        exact Option.some.inj this
      rw [List.getElem?_eq_getElem h1] at this
      rw [Option.some.inj this, hgm]
    have hgm2 : (lmul (g.r_extra * 2 * cap_val p) g.single_ao)[i] =
        (g.r_extra * 2 * cap_val p) * g.single_ao[i] := by
      have := lmul_get (g.r_extra * 2 * cap_val p) g.single_ao i haoi
      rw [List.getElem?_eq_getElem (by omega)] at this
      exact Option.some.inj this
    rw [hsub1, hgm2]
    rw [List.getD_eq_getElem p.i_meas 0 hi, List.getD_eq_getElem g.dvdt 0 hdvi,
        List.getD_eq_getElem g.single_ao 0 haoi]
    congr 1
    ring
  · norm_num [assemble_pixel, cap_val, lsub, lmul, List.zipWith]

/-- Claim C4, witness: the elementwise formula instantiated on the
concrete pixel of the claim at index 0, evaluating to 8.8 = 44/5. -/
theorem corrected_current_formula_witness :
    (assemble_pixel ⟨[1, 1], [2, 2], 5⟩
        ⟨[10, 10], ⟨[], [], [], 1/5⟩, ⟨[], [], [], 1/5⟩⟩).icorr[0]?
      = some (44/5) := by
  have h := (corrected_current_formula ⟨[1, 1], [2, 2], 5⟩
      ⟨[10, 10], ⟨[], [], [], 1/5⟩, ⟨[], [], [], 1/5⟩⟩
      (by decide) (by decide)).1.2 0 (by decide)
  rw [h]
  norm_num [cap_val]

/-! ### Claim C5 -/

/-- Claim C5 (confirmed): before merging, the reverse x values are
negated, and the merged x, mR, vR vectors are the forward values followed
by the reverse values in that order; a reverse x of [1, 2, 3] contributes
[-1, -2, -3] placed right after the forward x. -/
theorem merged_halves_order (g : Geometry) (p : PixelData) :
    (assemble_pixel g p).fullX = p.forw.x ++ p.rev.x.map (fun v => -v) ∧
    (assemble_pixel g p).mR = p.forw.mR ++ p.rev.mR ∧
    (assemble_pixel g p).vR = p.forw.vR ++ p.rev.vR ∧
    (∀ j, j < p.rev.x.length →
      (assemble_pixel g p).fullX[p.forw.x.length + j]?
        = some (-(p.rev.x.getD j 0))) ∧
    (assemble_pixel g ⟨[], ⟨[9], [], [], 0⟩, ⟨[1, 2, 3], [], [], 0⟩⟩).fullX
      = [9, -1, -2, -3] := by
  have hx : (assemble_pixel g p).fullX = p.forw.x ++ p.rev.x.map (fun v => -v) := by
    rw [assemble_pixel_fullX]
    congr 1
    simp [neg_one_mul]
  refine ⟨hx, rfl, rfl, fun j hj => ?_, ?_⟩
  · rw [hx, List.getElem?_append_right (Nat.le_add_right _ _)]
    rw [Nat.add_sub_cancel_left]
    rw [List.getElem?_map, List.getElem?_eq_getElem hj]
    rw [List.getD_eq_getElem p.rev.x 0 hj]
    rfl
  · rw [assemble_pixel_fullX]
    norm_num

/-- Claim C5, witness: position 1 of the reverse half lands at merged
index forward-length + 1 with its sign flipped. -/
theorem merged_halves_order_witness :
    (assemble_pixel ⟨[], [], 0⟩
        ⟨[], ⟨[9], [], [], 0⟩, ⟨[1, 2, 3], [], [], 0⟩⟩).fullX[2]?
      = some (-2 : ℚ) := by
  have h := (merged_halves_order ⟨[], [], 0⟩
      ⟨[], ⟨[9], [], [], 0⟩, ⟨[1, 2, 3], [], [], 0⟩⟩).2.2.2.1 1 (by decide)
  simpa using h

/-! ### Claim C8 -/

/-- Claim C8 (confirmed): each persisted capacitance entry is the
internal cValue scaled by 1000, while the persisted resistance and
variance rows are exactly the merged mR and vR vectors the inference
routine returned, with no scaling. -/
theorem persisted_units_scaling (g : Geometry) (st : H5State)
    (chunk : List PixelData) (i : ℕ) (p : PixelData)
    (hp : chunk[i]? = some p) :
    (write_results_chunk g st chunk).cap_rows (st.start_pos + i)
        = some (p.forw.cValue * 1000, p.rev.cValue * 1000) ∧
    (write_results_chunk g st chunk).res_rows (st.start_pos + i)
        = some (p.forw.mR ++ p.rev.mR) ∧
    (write_results_chunk g st chunk).var_rows (st.start_pos + i)
        = some (p.forw.vR ++ p.rev.vR) := by
  have hi : i < chunk.length := (List.getElem?_eq_some.1 hp).1
  have hrange : st.start_pos ≤ st.start_pos + i ∧
      st.start_pos + i < st.start_pos +
        ((chunk.map (assemble_pixel g)).map PixelOut.cap).length := by
    constructor
    · omega
    · rw [List.length_map, List.length_map]; omega
  refine ⟨?_, ?_, ?_⟩ <;>
  · show write_rows _ st.start_pos _ (st.start_pos + i) = _
    unfold write_rows
    rw [if_pos (by simpa [List.length_map] using hrange)]
    rw [Nat.add_sub_cancel_left, List.getElem?_map, List.getElem?_map, hp]
    rfl

/-- Claim C8, witness: a one-pixel chunk written at start position 7
persists the scaled pair (4000, 6000) and the unscaled resistance row. -/
theorem persisted_units_scaling_witness :
    (write_results_chunk ⟨[], [], 0⟩
        { spec_vals_x := none, cap_rows := fun _ => none,
          res_rows := fun _ => none, var_rows := fun _ => none,
          icorr_rows := fun _ => none, last_pixel := 7, start_pos := 7,
          events := [] }
        [⟨[], ⟨[], [5], [], 4⟩, ⟨[], [], [], 6⟩⟩]).cap_rows 7
      = some (4000, 6000) ∧
    (write_results_chunk ⟨[], [], 0⟩
        { spec_vals_x := none, cap_rows := fun _ => none,
          res_rows := fun _ => none, var_rows := fun _ => none,
          icorr_rows := fun _ => none, last_pixel := 7, start_pos := 7,
          events := [] }
        [⟨[], ⟨[], [5], [], 4⟩, ⟨[], [], [], 6⟩⟩]).res_rows 7
      = some [5] := by
  have h := persisted_units_scaling ⟨[], [], 0⟩
      { spec_vals_x := none, cap_rows := fun _ => none,
        res_rows := fun _ => none, var_rows := fun _ => none,
        icorr_rows := fun _ => none, last_pixel := 7, start_pos := 7,
        events := [] }
      [⟨[], ⟨[], [5], [], 4⟩, ⟨[], [], [], 6⟩⟩] 0
      ⟨[], ⟨[], [5], [], 4⟩, ⟨[], [], [], 6⟩⟩ (by decide)
  constructor
  · have := h.1
    norm_num at this ⊢
    convert this using 2
  · have := h.2.1
    norm_num at this ⊢
    convert this using 2

/-! ### Claim C10 -/

/-- Claim C10 (confirmed): the persisted capacitance compound entry is
the raw pair of half-cycle estimates, each scaled by 1000 and not halved
(in particular it differs from the halved value whenever the estimate is
nonzero); the halved mean enters only the current-compensation formula
and is never itself stored. -/
theorem capacitance_pair_raw (g : Geometry) (p : PixelData) :
    (assemble_pixel g p).cap = (p.forw.cValue * 1000, p.rev.cValue * 1000) ∧
    cap_val p = ((p.forw.cValue + p.rev.cValue) / 2) * (1/2) ∧
    (assemble_pixel g p).icorr
      = lsub (lsub p.i_meas (lmul (cap_val p) g.dvdt))
             (lmul (g.r_extra * 2 * cap_val p) g.single_ao) ∧
    (p.forw.cValue ≠ 0 →
      (assemble_pixel g p).cap.1 ≠ p.forw.cValue * (1/2) * 1000) ∧
    (assemble_pixel ⟨[], [], 0⟩
        ⟨[], ⟨[], [], [], 4⟩, ⟨[], [], [], 6⟩⟩).cap = (4000, 6000) := by
  refine ⟨assemble_pixel_cap g p, rfl, assemble_pixel_icorr g p, ?_, ?_⟩
  · intro hne heq
    rw [assemble_pixel_cap] at heq
    simp only at heq
    apply hne
    linarith
  · rw [assemble_pixel_cap]
    norm_num

/-- Claim C10, witness: for forward estimate 4 the stored first component
4000 differs from the halved 2000. -/
theorem capacitance_pair_raw_witness :
    (4 : ℚ) ≠ 0 ∧
    (assemble_pixel ⟨[], [], 0⟩
        ⟨[], ⟨[], [], [], 4⟩, ⟨[], [], [], 6⟩⟩).cap.1
      ≠ (4 : ℚ) * (1/2) * 1000 := by
  refine ⟨by norm_num, ?_⟩
  have h := (capacitance_pair_raw ⟨[], [], 0⟩
      ⟨[], ⟨[], [], [], 4⟩, ⟨[], [], [], 6⟩⟩).2.2.2.1 (by norm_num)
  simpa using h

end GIV
